import Mathlib

/-!
# Verification of the scheduler-frontend core (`src/App.js`)

This file gives a shallow embedding of the data-transformation core of the
scheduling dashboard client (`src/App.js`) and settles the frozen claims
about it.

Modelling conventions, used throughout:

* **Dates.** Every date string the app handles is a date-only value parsed by
  `parseDate` (which accepts `YYYY-MM-DD` and `YYYY/MM/DD`).  All such JS
  `Date`s sit at local midnight, so we represent a parsed date by its
  *calendar-day number* (`Int`, proleptic-Gregorian days since 1970-01-01,
  the standard `days_from_civil` encoding).  A JS timestamp `getTime()` of
  such a date is `day * 86400000` (`msPerDay`); this exact scaling commutes
  with `min`/`max`/comparisons, so comparisons on `Date` objects are modelled
  by comparisons on day numbers.  `Math.round((a.getTime() - b.getTime()) /
  86400000)` is modelled by `jsRound` applied to the scaled values (DST
  shifts of a fixed-offset zone are at most an hour and vanish under this
  rounding, so the day-granularity model is exact for it).
* **JS string truthiness.**  For the string values handled here, a value is
  falsy exactly when it is absent (`undefined`) or the empty string; an
  absent field behaves like `""` everywhere it is used by this code
  (`parseDate`, `parseFloat`, `parseInt` and boolean tests all treat them
  alike), so absent fields are modelled as `""`.
* **`new Date(str)` parsing.**  The app only ever feeds `parseDate` with
  date-only strings (`YYYY-MM-DD` from `<input type="date">`, remote
  summaries and `formatDate`, or the `/`-separated variant), which the
  sanitising `dash-to-slash replace` maps into `YYYY/MM/DD`.  The model
  implements exactly this grammar (4-digit year, calendar-valid month/day)
  and maps every other string to `null`; engine-specific extra formats are
  outside the model.
-/

/-- Floor-division remainderless helper: JS `Math.round(num/den)` for a
positive denominator `den`, i.e. `⌊num/den + 1/2⌋` (JS rounds half toward
+∞).  For a positive denominator this floor is Euclidean division. -/
def jsRound (num den : Int) : Int := (2 * num + den) / (2 * den)

/-- Milliseconds per day; `1000 * 60 * 60 * 24` from the source. -/
def msPerDay : Int := 86400000

/-- `true` for leap years of the proleptic Gregorian calendar. -/
def isLeapYear (y : Int) : Bool := (y % 4 == 0 && y % 100 != 0) || y % 400 == 0

/-- Number of days of month `m` (1-12) in year `y`. -/
def daysInMonth (y m : Int) : Int :=
  if m == 2 then (if isLeapYear y then 29 else 28)
  else if m == 4 || m == 6 || m == 9 || m == 11 then 30
  else 31

/-- Day number of a civil date (days since 1970-01-01, Howard Hinnant's
`days_from_civil`); the proleptic-Gregorian encoding of the JS `Date`
a date-only string parses to. -/
def daysFromCivil (y m d : Int) : Int :=
  let yy := if m ≤ 2 then y - 1 else y
  let era := Int.fdiv yy 400
  let yoe := yy - era * 400
  let mp := if m ≤ 2 then m + 9 else m - 3
  let doy := Int.fdiv (153 * mp + 2) 5 + d - 1
  let doe := yoe * 365 + Int.fdiv yoe 4 - Int.fdiv yoe 100 + doy
  era * 146097 + doe - 719468

/-- Splits a char list at every occurrence of `sep`; `String.split('\n')`
and the component split of a sanitised date string. -/
def splitOnChar (sep : Char) : List Char → List (List Char)
  | [] => [[]]
  | c :: rest =>
    if c = sep then [] :: splitOnChar sep rest
    else
      match splitOnChar sep rest with
      | [] => [[c]]
      | f :: fs => (c :: f) :: fs

/-- Numeric value of a digit list (most significant first). -/
def digitsToNat (cs : List Char) : Nat :=
  cs.foldl (fun acc c => acc * 10 + (c.toNat - '0'.toNat)) 0

/-- `parseDate` from `App.js`: `null` for a falsy/non-string input, otherwise
`dash-to-slash replace` and `new Date(...)`, with `null` for an invalid date.
The model implements the `YYYY/MM/DD` grammar this app feeds it (see the
header comment); the result is the calendar-day number. -/
def parseDate (s : String) : Option Int :=
  if s = "" then none
  else
    let sanitized := s.data.map (fun c => if c = '-' then '/' else c)
    match splitOnChar '/' sanitized with
    | [ys, ms, ds] =>
      if ys.length = 4 ∧ ys ≠ [] ∧ ys.all Char.isDigit ∧
         ms ≠ [] ∧ ms.all Char.isDigit ∧ ds ≠ [] ∧ ds.all Char.isDigit then
        let y : Int := digitsToNat ys
        let m : Int := digitsToNat ms
        let d : Int := digitsToNat ds
        if 1 ≤ m ∧ m ≤ 12 ∧ 1 ≤ d ∧ d ≤ daysInMonth y m then
          some (daysFromCivil y m d)
        else none
      else none
    | _ => none

/-- Date-override maps (`startDateOverrides` / `endDateOverrides`): sparse
maps from Project id to the override string. -/
abbrev Overrides := List (String × String)

/-- JS `a || b` for an (optionally absent) string `a`: the empty string and
`undefined` are falsy and fall through to `b`. -/
def jsOrDefault (o : Option String) (b : String) : String :=
  match o with
  | some s => if s = "" then b else s
  | none => b

/-- `Math.round((due.getTime() - fin.getTime()) / (1000*60*60*24))` on two
day-granularity dates (see header: `getTime` is `day * msPerDay`). -/
def dayDiffRound (due fin : Int) : Int := jsRound (due * msPerDay - fin * msPerDay) msPerDay

theorem dayDiffRound_eq (due fin : Int) : dayDiffRound due fin = due - fin := by
  unfold dayDiffRound jsRound msPerDay
  rw [show 2 * (due * 86400000 - fin * 86400000) + 86400000
      = 86400000 + (due - fin) * 172800000 by ring]
  rw [show ((2 : Int) * 86400000) = 172800000 by norm_num]
  rw [Int.add_mul_ediv_right _ _ (by norm_num : (172800000 : Int) ≠ 0)]
  norm_num

/-! ## Aggregation engine (`runSchedulingEngine`, `App.js` 543-574)

`projectSummaryList` maps each remote `results.projectSummary` row to a
summary record with the effective due date and `daysVariance`, then sorts by
Store then Project.  `storeSummaryMap` is a single keyed pass over that list
keeping running min/max per store; rows with an unparseable start, finish or
effective due date are skipped (`if (!startDate || !finishDate || !dueDate)
return`). -/

/-- One row of the remote `results.projectSummary` (string-valued JSON
fields; an absent field is modelled as `""`, see the header). -/
structure ProjRow where
  Project : String
  Store : String
  StartDate : String
  DueDate : String
  FinishDate : String
deriving DecidableEq, Repr

/-- One element of `projectSummaryList`: the remote row spread (`{...p}`)
plus `OriginalStartDate` and `daysVariance`. -/
structure ProjSummary where
  Project : String
  Store : String
  StartDate : String
  DueDate : String
  FinishDate : String
  OriginalStartDate : String
  daysVariance : Int
deriving DecidableEq, Repr

/-- `endDateOverrides[p.Project] || p.DueDate` (JS `||`, so an empty-string
override falls through to the plan due date). -/
def effectiveDueStr (eov : Overrides) (project dueDate : String) : String :=
  jsOrDefault (List.lookup project eov) dueDate

/-- The per-row body of the `projectSummaryList` map (`App.js` 543-550). -/
def mkProjSummary (eov : Overrides) (p : ProjRow) : ProjSummary :=
  let effectiveDueDate := parseDate (effectiveDueStr eov p.Project p.DueDate)
  let finishDate := parseDate p.FinishDate
  let diffDays :=
    match effectiveDueDate, finishDate with
    | some d, some f => dayDiffRound d f
    | _, _ => 0
  { Project := p.Project, Store := p.Store, StartDate := p.StartDate,
    DueDate := p.DueDate, FinishDate := p.FinishDate,
    OriginalStartDate := p.StartDate, daysVariance := diffDays }

/-- Stable insertion sort, modelling `Array.prototype.sort` with a
two-valued comparator (modern engines sort stably). -/
def insertSorted (le : α → α → Bool) (a : α) : List α → List α
  | [] => [a]
  | b :: bs => if le a b then a :: b :: bs else b :: insertSorted le a bs

/-- Stable sort by the Bool relation `le`. -/
def sortBy (le : α → α → Bool) (l : List α) : List α :=
  l.foldr (insertSorted le) []

/-- Code-point lexicographic order on char lists: the model of
`localeCompare` ordering (the claims depend only on the sorted list's
membership, never on tie order or locale). -/
def lexLE : List Char → List Char → Bool
  | [], _ => true
  | _ :: _, [] => false
  | a :: as, b :: bs =>
    if a = b then lexLE as bs else Nat.blt a.toNat b.toNat

/-- Lexicographic `≤` on strings, executable in the kernel. -/
def strLeB (a b : String) : Bool := lexLE a.data b.data

/-- The comparator `a.Store.localeCompare(b.Store) ||
a.Project.localeCompare(b.Project)` (lexicographic by Store, then
Project). -/
def projLE (a b : ProjSummary) : Bool :=
  if a.Store = b.Store then strLeB a.Project b.Project else strLeB a.Store b.Store

/-- `projectSummaryList` (`App.js` 543-551). -/
def projectSummaryList (eov : Overrides) (remote : List ProjRow) : List ProjSummary :=
  sortBy projLE (remote.map (mkProjSummary eov))

/-- A value of `storeSummaryMap[store]`: running min start / max finish /
max effective due for one store. -/
structure StoreAcc where
  Store : String
  StartDate : Int
  FinishDate : Int
  DueDate : Int
deriving DecidableEq, Repr

/-- The three parsed dates of one project-summary row as used by the store
pass (`App.js` 556-561), `none` when any of the three fails to parse. -/
def storeTriple (eov : Overrides) (p : ProjSummary) : Option (Int × Int × Int) :=
  match parseDate p.StartDate, parseDate p.FinishDate,
        parseDate (effectiveDueStr eov p.Project p.DueDate) with
  | some s, some f, some d => some (s, f, d)
  | _, _, _ => none

/-- The keyed min/max update of `storeSummaryMap` (`App.js` 563-569): a JS
object modelled as an association list in key-insertion order; a fresh store
key is appended, an existing entry is updated in place. -/
def updStore : List StoreAcc → String → Int × Int × Int → List StoreAcc
  | [], st, (s, f, d) => [{ Store := st, StartDate := s, FinishDate := f, DueDate := d }]
  | a :: rest, st, (s, f, d) =>
    if a.Store = st then
      { Store := a.Store,
        StartDate := if s < a.StartDate then s else a.StartDate,
        FinishDate := if f > a.FinishDate then f else a.FinishDate,
        DueDate := if d > a.DueDate then d else a.DueDate } :: rest
    else a :: updStore rest st (s, f, d)

/-- One iteration of the `projectSummaryList.forEach` body (`App.js`
554-570): skip the row if any of the three dates is unparseable, else fold
it into its store's accumulator. -/
def storeStep (eov : Overrides) (m : List StoreAcc) (p : ProjSummary) : List StoreAcc :=
  match storeTriple eov p with
  | none => m
  | some t => updStore m p.Store t

/-- The full `storeSummaryMap` pass. -/
def storeFold (eov : Overrides) (rows : List ProjSummary) : List StoreAcc :=
  rows.foldl (storeStep eov) []

/-- JS object lookup by key on the accumulator. -/
def lookupStore (st : String) (m : List StoreAcc) : Option StoreAcc :=
  m.find? (fun a => a.Store == st)

/-- One element of `storeSummaryList`: the accumulator entry plus its
`daysVariance` (`App.js` 571-573; the `formatDate` re-rendering of the three
dates is the identity at day granularity, see header). -/
structure StoreSum where
  Store : String
  StartDate : Int
  FinishDate : Int
  DueDate : Int
  daysVariance : Int
deriving DecidableEq, Repr

/-- The `Object.values(storeSummaryMap).map(...)` body (`App.js` 571-573). -/
def mkStoreSum (a : StoreAcc) : StoreSum :=
  { Store := a.Store, StartDate := a.StartDate, FinishDate := a.FinishDate,
    DueDate := a.DueDate, daysVariance := dayDiffRound a.DueDate a.FinishDate }

/-- `storeSummaryList` (`App.js` 571-574). -/
def storeSummaryList (eov : Overrides) (rows : List ProjSummary) : List StoreSum :=
  sortBy (fun a b => strLeB a.Store b.Store) ((storeFold eov rows).map mkStoreSum)

/-- The `StoreSummaryRecord` of store `st`: the entry of `storeSummaryMap`
for that key, with its variance. -/
def storeRecord (eov : Overrides) (rows : List ProjSummary) (st : String) : Option StoreSum :=
  (lookupStore st (storeFold eov rows)).map mkStoreSum

/-- The parsed (start, finish, effective due) triples of store `st`'s rows,
in list order — exactly the rows the store pass does not skip. -/
def storeTriples (eov : Overrides) (st : String) (rows : List ProjSummary) :
    List (Int × Int × Int) :=
  rows.filterMap (fun p => if p.Store = st then storeTriple eov p else none)

/-- Componentwise min/max/max combination, the running update of one store's
accumulator. -/
def rollStep (a t : Int × Int × Int) : Int × Int × Int :=
  (if t.1 < a.1 then t.1 else a.1,
   if t.2.1 > a.2.1 then t.2.1 else a.2.1,
   if t.2.2 > a.2.2 then t.2.2 else a.2.2)

/-- The triple held in a store accumulator entry. -/
def accTriple (a : StoreAcc) : Int × Int × Int := (a.StartDate, a.FinishDate, a.DueDate)

/-- Rebuild an accumulator entry from a store name and a triple. -/
def mkAcc (st : String) (t : Int × Int × Int) : StoreAcc :=
  { Store := st, StartDate := t.1, FinishDate := t.2.1, DueDate := t.2.2 }

theorem accTriple_mkAcc (st : String) (t : Int × Int × Int) : accTriple (mkAcc st t) = t := rfl

theorem if_lt_eq_min (a b : Int) : (if b < a then b else a) = min a b := by
  rcases lt_or_ge b a with h | h
  · rw [if_pos h, min_eq_right h.le]
  · rw [if_neg (not_lt.mpr h), min_eq_left h]

theorem if_gt_eq_max (a b : Int) : (if b > a then b else a) = max a b := by
  rcases lt_or_ge a b with h | h
  · rw [if_pos h, max_eq_right h.le]
  · rw [if_neg (not_lt.mpr h), max_eq_left h]

theorem rollStep_fst (t u : Int × Int × Int) : (rollStep t u).1 = min t.1 u.1 := by
  simp only [rollStep]
  exact if_lt_eq_min t.1 u.1

theorem rollStep_fin (t u : Int × Int × Int) : (rollStep t u).2.1 = max t.2.1 u.2.1 := by
  simp only [rollStep]
  exact if_gt_eq_max t.2.1 u.2.1

theorem rollStep_due (t u : Int × Int × Int) : (rollStep t u).2.2 = max t.2.2 u.2.2 := by
  simp only [rollStep]
  exact if_gt_eq_max t.2.2 u.2.2

theorem foldl_rollStep_fst :
    ∀ (ts : List (Int × Int × Int)) (t : Int × Int × Int),
      (ts.foldl rollStep t).1 = (ts.map (fun x => x.1)).foldl min t.1
  | [], _ => rfl
  | u :: us, t => by
    simp only [List.foldl_cons, List.map_cons]
    rw [foldl_rollStep_fst us (rollStep t u), rollStep_fst]

theorem foldl_rollStep_fin :
    ∀ (ts : List (Int × Int × Int)) (t : Int × Int × Int),
      (ts.foldl rollStep t).2.1 = (ts.map (fun x => x.2.1)).foldl max t.2.1
  | [], _ => rfl
  | u :: us, t => by
    simp only [List.foldl_cons, List.map_cons]
    rw [foldl_rollStep_fin us (rollStep t u), rollStep_fin]

theorem foldl_rollStep_due :
    ∀ (ts : List (Int × Int × Int)) (t : Int × Int × Int),
      (ts.foldl rollStep t).2.2 = (ts.map (fun x => x.2.2)).foldl max t.2.2
  | [], _ => rfl
  | u :: us, t => by
    simp only [List.foldl_cons, List.map_cons]
    rw [foldl_rollStep_due us (rollStep t u), rollStep_due]

theorem foldl_min_mem : ∀ (l : List Int) (a : Int), l.foldl min a ∈ a :: l
  | [], a => by simp
  | u :: us, a => by
    have ih := foldl_min_mem us (min a u)
    simp only [List.foldl_cons]
    rcases List.mem_cons.mp ih with h | h
    · rw [h]
      rcases min_choice a u with h' | h' <;> rw [h'] <;> simp
    · simp [h]

theorem foldl_min_le : ∀ (l : List Int) (a : Int), ∀ x ∈ a :: l, l.foldl min a ≤ x
  | [], a, x, hx => by
    simp only [List.mem_singleton] at hx
    simp [hx]
  | u :: us, a, x, hx => by
    simp only [List.foldl_cons]
    have hhead := foldl_min_le us (min a u) (min a u) (List.mem_cons.mpr (Or.inl rfl))
    rcases List.mem_cons.mp hx with rfl | hx'
    · exact le_trans hhead (min_le_left _ _)
    · rcases List.mem_cons.mp hx' with rfl | hx''
      · exact le_trans hhead (min_le_right _ _)
      · exact foldl_min_le us (min a u) x (List.mem_cons.mpr (Or.inr hx''))

theorem foldl_max_mem : ∀ (l : List Int) (a : Int), l.foldl max a ∈ a :: l
  | [], a => by simp
  | u :: us, a => by
    have ih := foldl_max_mem us (max a u)
    simp only [List.foldl_cons]
    rcases List.mem_cons.mp ih with h | h
    · rw [h]
      rcases max_choice a u with h' | h' <;> rw [h'] <;> simp
    · simp [h]

theorem foldl_max_ge : ∀ (l : List Int) (a : Int), ∀ x ∈ a :: l, x ≤ l.foldl max a
  | [], a, x, hx => by
    simp only [List.mem_singleton] at hx
    simp [hx]
  | u :: us, a, x, hx => by
    simp only [List.foldl_cons]
    have hhead := foldl_max_ge us (max a u) (max a u) (List.mem_cons.mpr (Or.inl rfl))
    rcases List.mem_cons.mp hx with rfl | hx'
    · exact le_trans (le_max_left _ _) hhead
    · rcases List.mem_cons.mp hx' with rfl | hx''
      · exact le_trans (le_max_right _ _) hhead
      · exact foldl_max_ge us (max a u) x (List.mem_cons.mpr (Or.inr hx''))

theorem lookupStore_store_eq {st : String} {m : List StoreAcc} {a : StoreAcc}
    (h : lookupStore st m = some a) : a.Store = st := by
  have := List.find?_some h
  simpa using this

theorem lookupStore_updStore_self (st : String) (t : Int × Int × Int) :
    ∀ m : List StoreAcc,
      lookupStore st (updStore m st t) =
        some (mkAcc st ((lookupStore st m).elim t (fun a => rollStep (accTriple a) t)))
  | [] => by
    obtain ⟨s, f, d⟩ := t
    simp [updStore, lookupStore, mkAcc, List.find?]
  | a :: rest => by
    obtain ⟨s, f, d⟩ := t
    by_cases h : a.Store = st
    · have hbeq : (a.Store == st) = true := by simp [h]
      simp only [updStore, if_pos h, lookupStore, List.find?, hbeq, cond_true]
      simp [mkAcc, rollStep, accTriple, h]
    · have hbeq : (a.Store == st) = false := by simp [h]
      simp only [updStore, if_neg h, lookupStore, List.find?, hbeq, cond_false]
      exact lookupStore_updStore_self st (s, f, d) rest

theorem lookupStore_updStore_ne {st st' : String} (h : st' ≠ st) (t : Int × Int × Int) :
    ∀ m : List StoreAcc, lookupStore st (updStore m st' t) = lookupStore st m
  | [] => by
    obtain ⟨s, f, d⟩ := t
    have hbeq : (st' == st) = false := by simp [h]
    simp [updStore, lookupStore, List.find?, hbeq]
  | a :: rest => by
    obtain ⟨s, f, d⟩ := t
    by_cases ha : a.Store = st'
    · have hbeq : (a.Store == st) = false := by simp [ha, h]
      simp [updStore, if_pos ha, lookupStore, List.find?, hbeq]
    · simp only [updStore, if_neg ha, lookupStore, List.find?]
      cases hb : (a.Store == st) with
      | true => rfl
      | false => exact lookupStore_updStore_ne h (s, f, d) rest

/-- How the keyed store pass relates to the per-store triple list: starting
from any accumulator, the entry for `st` after the fold is the running
min/max combination of its prior value (if any) with the triples of `st`'s
rows. -/
theorem lookupStore_foldl (eov : Overrides) (st : String) :
    ∀ (rows : List ProjSummary) (m : List StoreAcc),
      lookupStore st (rows.foldl (storeStep eov) m) =
        match lookupStore st m, storeTriples eov st rows with
        | some a, ts => some (mkAcc st (ts.foldl rollStep (accTriple a)))
        | none, [] => none
        | none, t :: ts => some (mkAcc st (ts.foldl rollStep t))
  | [], m => by
    cases hm : lookupStore st m with
    | none => simp [storeTriples, hm]
    | some a =>
      have ha := lookupStore_store_eq hm
      simp only [List.foldl_nil, storeTriples, List.filterMap_nil, hm]
      cases a
      simp_all [mkAcc, accTriple]
  | p :: rest, m => by
    have hstep : (p :: rest).foldl (storeStep eov) m
        = rest.foldl (storeStep eov) (storeStep eov m p) := by
      simp [List.foldl_cons]
    rw [hstep, lookupStore_foldl eov st rest (storeStep eov m p)]
    cases htr : storeTriple eov p with
    | none =>
      have h1 : storeStep eov m p = m := by simp [storeStep, htr]
      have h2 : storeTriples eov st (p :: rest) = storeTriples eov st rest := by
        by_cases hst : p.Store = st <;> simp [storeTriples, List.filterMap_cons, hst, htr]
      rw [h1, h2]
    | some t =>
      by_cases hst : p.Store = st
      · have h1 : storeStep eov m p = updStore m st t := by
          rw [show updStore m st t = updStore m p.Store t by rw [hst]]
          simp [storeStep, htr]
        have h2 : storeTriples eov st (p :: rest) = t :: storeTriples eov st rest := by
          simp [storeTriples, List.filterMap_cons, hst, htr]
        rw [h1, h2, lookupStore_updStore_self st t m]
        cases hm : lookupStore st m <;>
          simp [Option.elim, accTriple_mkAcc, List.foldl_cons]
      · have h1 : storeStep eov m p = updStore m p.Store t := by simp [storeStep, htr]
        have h2 : storeTriples eov st (p :: rest) = storeTriples eov st rest := by
          simp [storeTriples, List.filterMap_cons, hst, htr]
        rw [h1, h2, lookupStore_updStore_ne hst t m]

theorem mem_insertSorted (le : α → α → Bool) (a x : α) :
    ∀ l : List α, x ∈ insertSorted le a l ↔ x = a ∨ x ∈ l
  | [] => by simp [insertSorted]
  | b :: bs => by
    by_cases h : le a b
    · simp only [insertSorted, if_pos h, List.mem_cons]
    · simp only [insertSorted, if_neg h, List.mem_cons, mem_insertSorted le a x bs]
      tauto

theorem mem_sortBy (le : α → α → Bool) (x : α) :
    ∀ l : List α, x ∈ sortBy le l ↔ x ∈ l
  | [] => by simp [sortBy]
  | b :: bs => by
    have ih := mem_sortBy le x bs
    simp only [sortBy, List.foldr_cons] at *
    rw [mem_insertSorted, ih, List.mem_cons]

/-- **C1.**  For every store rollup input, the `StoreSummaryRecord` of a
store is built by the single keyed pass over the project summary: writing
`t :: ts` for the (start, finish, effective due) triples of that store's
(date-parseable) projects, the record exists and its `StartDate` is the
minimum start, its `FinishDate` the maximum finish, its `DueDate` the
maximum effective due date over those projects, and `daysVariance` is
`Math.round((DueDate - FinishDate) in days)`, which at day granularity is
exactly `DueDate - FinishDate`. -/
theorem c1_store_rollup (eov : Overrides) (rows : List ProjSummary) (st : String)
    (t : Int × Int × Int) (ts : List (Int × Int × Int))
    (h : storeTriples eov st rows = t :: ts) :
    ∃ r : StoreSum, storeRecord eov rows st = some r ∧ r.Store = st ∧
      (r.StartDate ∈ (t :: ts).map (fun x => x.1) ∧
        ∀ x ∈ (t :: ts).map (fun x => x.1), r.StartDate ≤ x) ∧
      (r.FinishDate ∈ (t :: ts).map (fun x => x.2.1) ∧
        ∀ x ∈ (t :: ts).map (fun x => x.2.1), x ≤ r.FinishDate) ∧
      (r.DueDate ∈ (t :: ts).map (fun x => x.2.2) ∧
        ∀ x ∈ (t :: ts).map (fun x => x.2.2), x ≤ r.DueDate) ∧
      r.daysVariance = dayDiffRound r.DueDate r.FinishDate ∧
      r.daysVariance = r.DueDate - r.FinishDate := by
  have hfold := lookupStore_foldl eov st rows []
  have hnil : lookupStore st ([] : List StoreAcc) = none := rfl
  rw [hnil, h] at hfold
  refine ⟨mkStoreSum (mkAcc st (ts.foldl rollStep t)), ?_, rfl, ?_, ?_, ?_, rfl,
    dayDiffRound_eq _ _⟩
  · unfold storeRecord storeFold
    rw [hfold]
    rfl
  · rw [show (mkStoreSum (mkAcc st (ts.foldl rollStep t))).StartDate
        = (ts.foldl rollStep t).1 from rfl]
    rw [foldl_rollStep_fst]
    constructor
    · have := foldl_min_mem (ts.map (fun x => x.1)) t.1
      simpa using this
    · intro x hx
      refine foldl_min_le (ts.map (fun x => x.1)) t.1 x ?_
      simpa using hx
  · rw [show (mkStoreSum (mkAcc st (ts.foldl rollStep t))).FinishDate
        = (ts.foldl rollStep t).2.1 from rfl]
    rw [foldl_rollStep_fin]
    constructor
    · have := foldl_max_mem (ts.map (fun x => x.2.1)) t.2.1
      simpa using this
    · intro x hx
      refine foldl_max_ge (ts.map (fun x => x.2.1)) t.2.1 x ?_
      simpa using hx
  · rw [show (mkStoreSum (mkAcc st (ts.foldl rollStep t))).DueDate
        = (ts.foldl rollStep t).2.2 from rfl]
    rw [foldl_rollStep_due]
    constructor
    · have := foldl_max_mem (ts.map (fun x => x.2.2)) t.2.2
      simpa using this
    · intro x hx
      refine foldl_max_ge (ts.map (fun x => x.2.2)) t.2.2 x ?_
      simpa using hx

/-- Project X of the spec's store-rollup example. -/
def storeAProjX : ProjRow :=
  { Project := "X", Store := "Store-A", StartDate := "2025-07-01",
    DueDate := "2025-07-12", FinishDate := "2025-07-10" }

/-- Project Y of the spec's store-rollup example. -/
def storeAProjY : ProjRow :=
  { Project := "Y", Store := "Store-A", StartDate := "2025-07-03",
    DueDate := "2025-07-15", FinishDate := "2025-07-20" }

/-- Witness for C1: the spec's Store-A example.  Running the engine on
projects X (start 2025-07-01, finish 2025-07-10, effective due 2025-07-12)
and Y (start 2025-07-03, finish 2025-07-20, effective due 2025-07-15)
yields the record with start 2025-07-01, finish 2025-07-20, due 2025-07-15
and `daysVariance = -5`. -/
theorem c1_store_rollup_witness :
    (∃ r : StoreSum,
        storeRecord [] (projectSummaryList [] [storeAProjX, storeAProjY]) "Store-A" = some r ∧
        r.Store = "Store-A" ∧
        (r.StartDate ∈ [(daysFromCivil 2025 7 1, daysFromCivil 2025 7 10, daysFromCivil 2025 7 12),
            (daysFromCivil 2025 7 3, daysFromCivil 2025 7 20, daysFromCivil 2025 7 15)].map
            (fun x => x.1) ∧
          ∀ x ∈ [(daysFromCivil 2025 7 1, daysFromCivil 2025 7 10, daysFromCivil 2025 7 12),
            (daysFromCivil 2025 7 3, daysFromCivil 2025 7 20, daysFromCivil 2025 7 15)].map
            (fun x => x.1), r.StartDate ≤ x) ∧
        (r.FinishDate ∈ [(daysFromCivil 2025 7 1, daysFromCivil 2025 7 10, daysFromCivil 2025 7 12),
            (daysFromCivil 2025 7 3, daysFromCivil 2025 7 20, daysFromCivil 2025 7 15)].map
            (fun x => x.2.1) ∧
          ∀ x ∈ [(daysFromCivil 2025 7 1, daysFromCivil 2025 7 10, daysFromCivil 2025 7 12),
            (daysFromCivil 2025 7 3, daysFromCivil 2025 7 20, daysFromCivil 2025 7 15)].map
            (fun x => x.2.1), x ≤ r.FinishDate) ∧
        (r.DueDate ∈ [(daysFromCivil 2025 7 1, daysFromCivil 2025 7 10, daysFromCivil 2025 7 12),
            (daysFromCivil 2025 7 3, daysFromCivil 2025 7 20, daysFromCivil 2025 7 15)].map
            (fun x => x.2.2) ∧
          ∀ x ∈ [(daysFromCivil 2025 7 1, daysFromCivil 2025 7 10, daysFromCivil 2025 7 12),
            (daysFromCivil 2025 7 3, daysFromCivil 2025 7 20, daysFromCivil 2025 7 15)].map
            (fun x => x.2.2), x ≤ r.DueDate) ∧
        r.daysVariance = dayDiffRound r.DueDate r.FinishDate ∧
        r.daysVariance = r.DueDate - r.FinishDate) ∧
    storeRecord [] (projectSummaryList [] [storeAProjX, storeAProjY]) "Store-A" =
      some { Store := "Store-A", StartDate := daysFromCivil 2025 7 1,
             FinishDate := daysFromCivil 2025 7 20, DueDate := daysFromCivil 2025 7 15,
             daysVariance := -5 } :=
  ⟨c1_store_rollup [] (projectSummaryList [] [storeAProjX, storeAProjY]) "Store-A"
      (daysFromCivil 2025 7 1, daysFromCivil 2025 7 10, daysFromCivil 2025 7 12)
      [(daysFromCivil 2025 7 3, daysFromCivil 2025 7 20, daysFromCivil 2025 7 15)]
      (by decide),
    by decide⟩

/-- A remote project-summary row used to exhibit the `||`-fallback of the
effective due date: Project "P" with plan due 2025-07-10 and computed finish
2025-07-08. -/
def c2Row : ProjRow :=
  { Project := "P", Store := "S", StartDate := "2025-07-01",
    DueDate := "2025-07-10", FinishDate := "2025-07-08" }

/-- **C2, counterexample.**  The claim says the effective due date equals
the end-date override *whenever one is present*.  The code computes
`endDateOverrides[p.Project] || p.DueDate` with JS `||`, so the present but
empty override `""` (reachable by clearing the due-date `<input type="date">`,
whose `onChange` stores `e.target.value` verbatim) is skipped: the effective
due date is the remote `DueDate`, not the override, and the variance is
computed from the remote due date instead of defaulting to 0. -/
theorem c2_effective_due_counterexample :
    List.lookup c2Row.Project ([("P", "")] : Overrides) = some "" ∧
    effectiveDueStr [("P", "")] c2Row.Project c2Row.DueDate = "2025-07-10" ∧
    ("2025-07-10" : String) ≠ "" ∧
    (mkProjSummary [("P", "")] c2Row).daysVariance = 2 := by
  refine ⟨by decide, by decide, by decide, ?_⟩
  show dayDiffRound (daysFromCivil 2025 7 10) (daysFromCivil 2025 7 8) = 2
  rw [dayDiffRound_eq]
  decide

/-- **C2, amended.**  For every project summary row: the effective due date
equals the end-date override when one is present *and non-empty* (a falsy
override falls back to the remote `DueDate`, as JS `||` treats it as
absent), and equals the remote row's `DueDate` when none is present;
`daysVariance` is `Math.round((effectiveDueDate - FinishDate) in days)` —
exactly the day difference — when both dates parse, and `0` otherwise
(nothing is thrown). -/
theorem c2_effective_due_variance (eov : Overrides) (p : ProjRow) :
    (∀ s, List.lookup p.Project eov = some s → s ≠ "" →
        effectiveDueStr eov p.Project p.DueDate = s) ∧
    (List.lookup p.Project eov = none →
        effectiveDueStr eov p.Project p.DueDate = p.DueDate) ∧
    (∀ dd fd, parseDate (effectiveDueStr eov p.Project p.DueDate) = some dd →
        parseDate p.FinishDate = some fd →
        (mkProjSummary eov p).daysVariance = dayDiffRound dd fd ∧
        (mkProjSummary eov p).daysVariance = dd - fd) ∧
    ((parseDate (effectiveDueStr eov p.Project p.DueDate) = none ∨
        parseDate p.FinishDate = none) →
        (mkProjSummary eov p).daysVariance = 0) := by
  refine ⟨?_, ?_, ?_, ?_⟩
  · intro s hs hne
    simp [effectiveDueStr, jsOrDefault, hs, hne]
  · intro hs
    simp [effectiveDueStr, jsOrDefault, hs]
  · intro dd fd hdd hfd
    constructor
    · simp [mkProjSummary, hdd, hfd]
    · simp [mkProjSummary, hdd, hfd, dayDiffRound_eq]
  · intro hcase
    rcases hcase with hd | hf
    · simp [mkProjSummary, hd]
    · cases hdd : parseDate (effectiveDueStr eov p.Project p.DueDate) <;>
        simp [mkProjSummary, hdd, hf]

/-- Row with effective due 2025-07-15 and finish 2025-07-12 (ahead). -/
def c2RowAhead : ProjRow :=
  { Project := "PX", Store := "S", StartDate := "2025-07-01",
    DueDate := "2025-07-15", FinishDate := "2025-07-12" }

/-- Row with effective due 2025-07-15 and finish 2025-07-18 (late). -/
def c2RowLate : ProjRow :=
  { Project := "PY", Store := "S", StartDate := "2025-07-01",
    DueDate := "2025-07-15", FinishDate := "2025-07-18" }

/-- Witness for the amended C2: with no override, effective due 2025-07-15
and finish 2025-07-12 give `daysVariance = +3`; finish 2025-07-18 gives
`-3`. -/
theorem c2_effective_due_variance_witness :
    (mkProjSummary [] c2RowAhead).daysVariance = 3 ∧
    (mkProjSummary [] c2RowLate).daysVariance = -3 := by
  constructor
  · have h := ((c2_effective_due_variance [] c2RowAhead).2.2.1
      (daysFromCivil 2025 7 15) (daysFromCivil 2025 7 12) (by decide) (by decide)).2
    rw [h]
    decide
  · have h := ((c2_effective_due_variance [] c2RowLate).2.2.1
      (daysFromCivil 2025 7 15) (daysFromCivil 2025 7 18) (by decide) (by decide)).2
    rw [h]
    decide

/-- A project-summary row whose `StartDate` does not parse while finish
(2025-07-10) and effective due (2025-07-15) do. -/
def c10Row : ProjRow :=
  { Project := "Q", Store := "StoreQ", StartDate := "not-a-date",
    DueDate := "2025-07-15", FinishDate := "2025-07-10" }

/-- **C10, counterexample.**  The claim adds that skipped projects appear in
the project summary "with daysVariance 0".  A row whose *StartDate* alone is
unparseable is skipped by the store pass (its store gets no record), yet its
project-summary variance is computed from its parseable finish and due
dates: here it is `5`, not `0`. -/
theorem c10_rollup_skip_counterexample :
    storeRecord [] (projectSummaryList [] [c10Row]) "StoreQ" = none ∧
    mkProjSummary [] c10Row ∈ projectSummaryList [] [c10Row] ∧
    (mkProjSummary [] c10Row).daysVariance = 5 := by
  refine ⟨by decide, by decide, ?_⟩
  show dayDiffRound (daysFromCivil 2025 7 15) (daysFromCivil 2025 7 10) = 5
  rw [dayDiffRound_eq]
  decide

/-- **C10, amended.**  Any project-summary row whose start, finish or
effective due date fails to parse is skipped by the store accumulation, so a
store all of whose rows fail yields no `StoreSummaryRecord`; those projects
still appear in the project summary, and their `daysVariance` is `0`
whenever the *finish or effective due* date is the unparseable one (a row
whose start date alone fails keeps its computed variance). -/
theorem c10_rollup_skip (eov : Overrides) (remote : List ProjRow) (st : String) (p : ProjRow) :
    (storeTriples eov st (projectSummaryList eov remote) = [] →
        storeRecord eov (projectSummaryList eov remote) st = none) ∧
    (p ∈ remote → mkProjSummary eov p ∈ projectSummaryList eov remote) ∧
    ((parseDate (effectiveDueStr eov p.Project p.DueDate) = none ∨
        parseDate p.FinishDate = none) →
        (mkProjSummary eov p).daysVariance = 0) := by
  refine ⟨?_, ?_, ?_⟩
  · intro hempty
    have hfold := lookupStore_foldl eov st (projectSummaryList eov remote) []
    have hnil : lookupStore st ([] : List StoreAcc) = none := rfl
    rw [hnil, hempty] at hfold
    unfold storeRecord storeFold
    rw [hfold]
    rfl
  · intro hp
    unfold projectSummaryList
    rw [mem_sortBy]
    exact List.mem_map.mpr ⟨p, hp, rfl⟩
  · exact (c2_effective_due_variance eov p).2.2.2

/-- A project-summary row whose computed finish date does not parse. -/
def c10RowBadFinish : ProjRow :=
  { Project := "R", Store := "S", StartDate := "2025-07-01",
    DueDate := "2025-07-15", FinishDate := "soon" }

/-- Witness for the amended C10: the store of the start-unparseable row gets
no record while the row itself stays in the project summary; and a row
whose *finish* date fails to parse does carry `daysVariance = 0`. -/
theorem c10_rollup_skip_witness :
    storeRecord [] (projectSummaryList [] [c10Row]) "StoreQ" = none ∧
    mkProjSummary [] c10Row ∈ projectSummaryList [] [c10Row] ∧
    (mkProjSummary [] c10RowBadFinish).daysVariance = 0 :=
  ⟨(c10_rollup_skip [] [c10Row] "StoreQ" c10Row).1 (by decide),
   (c10_rollup_skip [] [c10Row] "StoreQ" c10Row).2.1 (by decide),
   (c10_rollup_skip [] [c10RowBadFinish] "S" c10RowBadFinish).2.2 (Or.inr (by decide))⟩

/-! ## Interactive timeline (`ProjectGanttChartComponent`, `App.js` 1166-1413)

The drag state machine holds the session's initial resolved start/finish and
the live visual dates.  Every `mousemove` recomputes both visual dates *from
the initial dates* and the current net `dayDelta = Math.round(deltaX /
pixelsPerDay)` (`App.js` 1196-1233); `mouseup` compares the final visual
dates with the initial ones at date-only granularity and emits the override
events (`App.js` 1235-1255).  `formatDate` (ISO date-only rendering) is
injective on day-granularity dates under a fixed UTC offset, so the model
compares day numbers directly and events carry day numbers; the pointer
coordinates enter only through `dayDelta`, over which the theorems
quantify. -/

/-- The three gesture kinds (`'move'`, `'resize-start'`, `'resize-end'`). -/
inductive DragType where
  | move
  | resizeStart
  | resizeEnd
deriving DecidableEq, Repr

/-- The `dragState` of an active session (pointer-origin `startX` enters the
model only through the net `dayDelta`). -/
structure DragState where
  dragType : DragType
  project : String
  initialStartDate : Int
  initialFinishDate : Int
  visualStartDate : Int
  visualFinishDate : Int
deriving DecidableEq, Repr

/-- `handleMouseDown` (`App.js` 1290-1308): a session starts with the
override-resolved plan dates as both initial and visual values (it does not
start at all if either fails to parse). -/
def startDrag (ty : DragType) (project : String) (initialStart initialFinish : Int) :
    DragState :=
  { dragType := ty, project := project,
    initialStartDate := initialStart, initialFinishDate := initialFinish,
    visualStartDate := initialStart, visualFinishDate := initialFinish }

/-- The visual update of one `handleMouseMove` at net day delta `dayDelta`
(`App.js` 1209-1232).  Both visual dates are recomputed from the *initial*
dates: a `move` shifts both preserving the exact duration, a `resize-end`
shifts only the finish and clamps it to start + 1 day, a `resize-start`
shifts only the start and clamps it to finish - 1 day. -/
def applyMove (s : DragState) (dayDelta : Int) : DragState :=
  match s.dragType with
  | DragType.move =>
    let ns := s.initialStartDate + dayDelta
    { s with visualStartDate := ns,
             visualFinishDate := ns + (s.initialFinishDate - s.initialStartDate) }
  | DragType.resizeEnd =>
    let nf := s.initialFinishDate + dayDelta
    { s with visualStartDate := s.initialStartDate,
             visualFinishDate := if nf ≤ s.initialStartDate then s.initialStartDate + 1 else nf }
  | DragType.resizeStart =>
    let ns := s.initialStartDate + dayDelta
    { s with visualFinishDate := s.initialFinishDate,
             visualStartDate := if ns ≥ s.initialFinishDate then s.initialFinishDate - 1 else ns }

/-- A whole gesture: the session state after a sequence of pointer-moves
with the given net day deltas. -/
def runGesture (s : DragState) (deltas : List Int) : DragState :=
  deltas.foldl applyMove s

/-- An override-change event emitted on pointer-up
(`onStartDateChange` / `onEndDateChange`, with the committed day). -/
inductive DragEv where
  | startChange (project : String) (day : Int)
  | endChange (project : String) (day : Int)
deriving DecidableEq, Repr

/-- `handleMouseUp` (`App.js` 1235-1255): compare final visual dates against
the initial values at date-only granularity and emit only the changed ones;
a `move` that changed the start emits the start change and the
duration-preserving end change. -/
def handleMouseUp (s : DragState) : List DragEv :=
  match s.dragType with
  | DragType.move =>
    if s.visualStartDate ≠ s.initialStartDate then
      [DragEv.startChange s.project s.visualStartDate,
       DragEv.endChange s.project
         (s.visualStartDate + (s.initialFinishDate - s.initialStartDate))]
    else []
  | DragType.resizeStart =>
    if s.visualStartDate ≠ s.initialStartDate then
      [DragEv.startChange s.project s.visualStartDate]
    else []
  | DragType.resizeEnd =>
    if s.visualFinishDate ≠ s.initialFinishDate then
      [DragEv.endChange s.project s.visualFinishDate]
    else []

/-- The override dates after the commit: the initial dates overwritten by
whatever events the pointer-up emitted. -/
def commitDates (s : DragState) : Int × Int :=
  (handleMouseUp s).foldl
    (fun pr e =>
      match e with
      | DragEv.startChange _ d => (d, pr.2)
      | DragEv.endChange _ d => (pr.1, d))
    (s.initialStartDate, s.initialFinishDate)

theorem applyMove_fields (s : DragState) (d : Int) :
    (applyMove s d).dragType = s.dragType ∧
    (applyMove s d).project = s.project ∧
    (applyMove s d).initialStartDate = s.initialStartDate ∧
    (applyMove s d).initialFinishDate = s.initialFinishDate := by
  cases h : s.dragType <;> simp [applyMove, h]

theorem runGesture_fields (s : DragState) :
    ∀ deltas : List Int,
      (runGesture s deltas).dragType = s.dragType ∧
      (runGesture s deltas).project = s.project ∧
      (runGesture s deltas).initialStartDate = s.initialStartDate ∧
      (runGesture s deltas).initialFinishDate = s.initialFinishDate
  | [] => by simp [runGesture]
  | d :: ds => by
    have h1 := applyMove_fields s d
    have h2 := runGesture_fields (applyMove s d) ds
    simp only [runGesture, List.foldl_cons] at *
    exact ⟨h2.1.trans h1.1, h2.2.1.trans h1.2.1,
      h2.2.2.1.trans h1.2.2.1, h2.2.2.2.trans h1.2.2.2⟩

/-- `applyMove` reads only the gesture kind, project and initial dates, so
two states agreeing on those produce the same state. -/
theorem applyMove_congr (x y : DragState) (d : Int)
    (ht : x.dragType = y.dragType) (hp : x.project = y.project)
    (hs : x.initialStartDate = y.initialStartDate)
    (hf : x.initialFinishDate = y.initialFinishDate) :
    applyMove x d = applyMove y d := by
  cases x
  cases y
  simp only at ht hp hs hf
  subst ht hp hs hf
  cases ‹DragType› <;> simp [applyMove]

/-- The session state after any nonempty gesture is the single-step state of
its last delta (each move recomputes the visuals from the initial dates). -/
theorem runGesture_last (s : DragState) :
    ∀ (deltas : List Int) (d : Int), deltas.getLast? = some d →
      runGesture s deltas = applyMove s d
  | [], d => by simp
  | [d0], d => by
    intro h
    simp only [List.getLast?_singleton, Option.some.injEq] at h
    subst h
    simp [runGesture]
  | d0 :: d1 :: ds, d => by
    intro h
    have htail : (d1 :: ds).getLast? = some d := by
      simpa [List.getLast?_cons_cons] using h
    have hrec := runGesture_last (applyMove s d0) (d1 :: ds) d htail
    have hfields := applyMove_fields s d0
    calc runGesture s (d0 :: d1 :: ds)
        = runGesture (applyMove s d0) (d1 :: ds) := by simp [runGesture, List.foldl_cons]
      _ = applyMove (applyMove s d0) d := hrec
      _ = applyMove s d := applyMove_congr _ _ _ hfields.1 hfields.2.1 hfields.2.2.1 hfields.2.2.2

/-- **C4.**  For every drag session whose initial duration is at least 1 day
(and whose visual dates start at the initial ones, as `handleMouseDown`
sets them), after any sequence of pointer-moves the visual finish is
strictly after the visual start: a `move` preserves the duration exactly, a
`resize-end` keeps the start and clamps the finish to at least start + 1
day, a `resize-start` keeps the finish and clamps the start to at most
finish - 1 day; and the dates committed on pointer-up also satisfy
finish > start. -/
theorem c4_drag_clamp_invariant (s0 : DragState) (deltas : List Int)
    (hvs : s0.visualStartDate = s0.initialStartDate)
    (hvf : s0.visualFinishDate = s0.initialFinishDate)
    (hdur : s0.initialStartDate + 1 ≤ s0.initialFinishDate) :
    ((runGesture s0 deltas).visualStartDate < (runGesture s0 deltas).visualFinishDate) ∧
    (s0.dragType = DragType.move →
      (runGesture s0 deltas).visualFinishDate - (runGesture s0 deltas).visualStartDate
        = s0.initialFinishDate - s0.initialStartDate) ∧
    (s0.dragType = DragType.resizeEnd →
      (runGesture s0 deltas).visualStartDate = s0.initialStartDate ∧
      s0.initialStartDate + 1 ≤ (runGesture s0 deltas).visualFinishDate) ∧
    (s0.dragType = DragType.resizeStart →
      (runGesture s0 deltas).visualFinishDate = s0.initialFinishDate ∧
      (runGesture s0 deltas).visualStartDate ≤ s0.initialFinishDate - 1) ∧
    (commitDates (runGesture s0 deltas)).1 < (commitDates (runGesture s0 deltas)).2 := by
  cases hl : deltas.getLast? with
  | none =>
    have hnil : deltas = [] := by
      cases deltas with
      | nil => rfl
      | cons a l => simp [List.getLast?_concat] at hl
    subst hnil
    have hrun : runGesture s0 [] = s0 := rfl
    rw [hrun]
    cases hty : s0.dragType <;>
      refine ⟨by omega, ?_, ?_, ?_, ?_⟩ <;>
        simp_all [handleMouseUp, commitDates, hvs, hvf, hty] <;> omega
  | some d =>
    rw [runGesture_last s0 deltas d hl]
    cases hty : s0.dragType
    · refine ⟨?_, ?_, ?_, ?_, ?_⟩ <;>
        simp_all [applyMove, hty, handleMouseUp, commitDates] <;>
          first
            | omega
            | (split_ifs <;> simp_all <;> omega)
    · refine ⟨?_, ?_, ?_, ?_, ?_⟩ <;>
        simp_all [applyMove, hty, handleMouseUp, commitDates] <;>
          first
            | omega
            | (split_ifs <;> simp_all <;> omega)
    · refine ⟨?_, ?_, ?_, ?_, ?_⟩ <;>
        simp_all [applyMove, hty, handleMouseUp, commitDates] <;>
          first
            | omega
            | (split_ifs <;> simp_all <;> omega)

/-- Witness for C4: a resize-end session on a 9-day bar (2025-07-01 to
2025-07-10) dragged 30 days to the left; the clamp keeps finish = start + 1
and the committed dates still satisfy finish > start. -/
theorem c4_drag_clamp_invariant_witness :
    ((runGesture (startDrag DragType.resizeEnd "P" (daysFromCivil 2025 7 1)
        (daysFromCivil 2025 7 10)) [-30]).visualStartDate <
      (runGesture (startDrag DragType.resizeEnd "P" (daysFromCivil 2025 7 1)
        (daysFromCivil 2025 7 10)) [-30]).visualFinishDate) ∧
    (commitDates (runGesture (startDrag DragType.resizeEnd "P" (daysFromCivil 2025 7 1)
        (daysFromCivil 2025 7 10)) [-30])).1 <
      (commitDates (runGesture (startDrag DragType.resizeEnd "P" (daysFromCivil 2025 7 1)
        (daysFromCivil 2025 7 10)) [-30])).2 := by
  have h := c4_drag_clamp_invariant
    (startDrag DragType.resizeEnd "P" (daysFromCivil 2025 7 1) (daysFromCivil 2025 7 10))
    [-30] rfl rfl (by decide)
  exact ⟨h.1, h.2.2.2.2⟩

theorem handleMouseUp_start_ne (s : DragState) (pr : String) (d : Int)
    (h : DragEv.startChange pr d ∈ handleMouseUp s) : d ≠ s.initialStartDate := by
  cases hty : s.dragType <;> simp only [handleMouseUp, hty] at h
  · split at h <;> simp_all
  · split at h <;> simp_all
  · split at h <;> simp_all

theorem handleMouseUp_end_ne (s : DragState) (pr : String) (d : Int)
    (h : DragEv.endChange pr d ∈ handleMouseUp s) : d ≠ s.initialFinishDate := by
  cases hty : s.dragType <;> simp only [handleMouseUp, hty] at h
  · split at h <;> simp_all
    omega
  · split at h <;> simp_all
  · split at h <;> simp_all

/-- The concrete degenerate session refuting C3 as stated: a resize-end
session on a zero-duration bar (start = finish = 2025-07-01). -/
def degenerateSession : DragState :=
  startDrag DragType.resizeEnd "P" (daysFromCivil 2025 7 1) (daysFromCivil 2025 7 1)

/-- **C3, counterexample.**  A resize-end gesture on a zero-duration bar
whose single pointer-move has net `dayDelta = 0` still emits an
`onEndDateChange`: the clamp bumps the visual finish to start + 1 day, which
then differs from the initial finish, so the claim's "a gesture whose net
dayDelta is 0 emits zero events" fails for sessions of initial duration
< 1 day. -/
theorem c3_commit_counterexample :
    handleMouseUp (runGesture degenerateSession [0]) =
      [DragEv.endChange "P" (daysFromCivil 2025 7 1 + 1)] ∧
    handleMouseUp (runGesture degenerateSession [0]) ≠ [] := by
  refine ⟨by decide, ?_⟩
  intro hcontra
  have : handleMouseUp (runGesture degenerateSession [0]) =
      [DragEv.endChange "P" (daysFromCivil 2025 7 1 + 1)] := by decide
  rw [this] at hcontra
  exact List.cons_ne_nil _ _ hcontra

/-- **C3, amended.**  For every drag session, on pointer-up an
override-change event is emitted only for a date that differs (at date-only
granularity) from the session's initial value; a gesture whose net dayDelta
is 0 emits zero events *provided the session's initial duration is at least
1 day* (a degenerate session of duration < 1 day can emit a clamped change
even at dayDelta 0); and a move gesture that changed the start date emits
both a start change and the duration-preserving end change. -/
theorem c3_commit_emission (s0 : DragState) (deltas : List Int)
    (hvs : s0.visualStartDate = s0.initialStartDate)
    (hvf : s0.visualFinishDate = s0.initialFinishDate) :
    (∀ pr d, DragEv.startChange pr d ∈ handleMouseUp (runGesture s0 deltas) →
        d ≠ s0.initialStartDate) ∧
    (∀ pr d, DragEv.endChange pr d ∈ handleMouseUp (runGesture s0 deltas) →
        d ≠ s0.initialFinishDate) ∧
    ((deltas = [] ∨ deltas.getLast? = some 0) →
        s0.initialStartDate + 1 ≤ s0.initialFinishDate →
        handleMouseUp (runGesture s0 deltas) = []) ∧
    (s0.dragType = DragType.move →
        (runGesture s0 deltas).visualStartDate ≠ s0.initialStartDate →
        handleMouseUp (runGesture s0 deltas) =
          [DragEv.startChange s0.project (runGesture s0 deltas).visualStartDate,
           DragEv.endChange s0.project
             ((runGesture s0 deltas).visualStartDate +
               (s0.initialFinishDate - s0.initialStartDate))]) := by
  have hfields := runGesture_fields s0 deltas
  refine ⟨?_, ?_, ?_, ?_⟩
  · intro pr d h
    have := handleMouseUp_start_ne (runGesture s0 deltas) pr d h
    rwa [hfields.2.2.1] at this
  · intro pr d h
    have := handleMouseUp_end_ne (runGesture s0 deltas) pr d h
    rwa [hfields.2.2.2] at this
  · intro hlast hdur
    rcases hlast with rfl | hlast
    · have hrun : runGesture s0 [] = s0 := rfl
      rw [hrun]
      cases hty : s0.dragType <;> simp [handleMouseUp, hty, hvs, hvf]
    · rw [runGesture_last s0 deltas 0 hlast]
      cases hty : s0.dragType <;>
        simp_all [applyMove, hty, handleMouseUp] <;> omega
  · intro hty hne
    have hty' : (runGesture s0 deltas).dragType = DragType.move := hfields.1.trans hty
    rw [← hfields.2.2.1] at hne
    rw [← hfields.2.1, ← hfields.2.2.2, ← hfields.2.2.1]
    simp [handleMouseUp, hty', hne]

/-- Witness for the amended C3: a 3-day move of the bar 2025-07-01 to
2025-07-10 emits exactly the start change and the duration-preserving end
change, while a 0-delta gesture on the same bar emits nothing. -/
theorem c3_commit_emission_witness :
    handleMouseUp (runGesture (startDrag DragType.move "P" (daysFromCivil 2025 7 1)
        (daysFromCivil 2025 7 10)) [3]) =
      [DragEv.startChange "P" (daysFromCivil 2025 7 1 + 3),
       DragEv.endChange "P"
         (daysFromCivil 2025 7 1 + 3 + (daysFromCivil 2025 7 10 - daysFromCivil 2025 7 1))] ∧
    handleMouseUp (runGesture (startDrag DragType.move "P" (daysFromCivil 2025 7 1)
        (daysFromCivil 2025 7 10)) [0]) = [] := by
  constructor
  · have h := (c3_commit_emission (startDrag DragType.move "P" (daysFromCivil 2025 7 1)
        (daysFromCivil 2025 7 10)) [3] rfl rfl).2.2.2 rfl (by decide)
    rw [h]
    decide
  · exact (c3_commit_emission (startDrag DragType.move "P" (daysFromCivil 2025 7 1)
        (daysFromCivil 2025 7 10)) [0] rfl rfl).2.2.1 (Or.inr rfl) (by decide)

/-- The valid timestamps the domain `useMemo` collects (`App.js`
1177-1182): for each displayed project, the parses of its original start,
original due, override-resolved start and override-resolved finish, keeping
the successful ones.  (`getTime` is the injective, monotone scaling
`day * msPerDay`; min/max commute with it, so day numbers stand in for the
millisecond timestamps.) -/
def ganttTimestamps (sov eov : Overrides) (projects : List ProjSummary) : List Int :=
  (projects.flatMap (fun p =>
    [parseDate p.OriginalStartDate,
     parseDate p.DueDate,
     parseDate (jsOrDefault (List.lookup p.Project sov) p.StartDate),
     parseDate (jsOrDefault (List.lookup p.Project eov) p.FinishDate)])).filterMap id

/-- The `{ minDate, maxDate }` memo (`App.js` 1174-1193): `none` when there
are no projects or no valid timestamps (the component then renders
nothing, `App.js` 1271-1273); otherwise the min and max timestamp padded by
7 calendar days on each side (`setDate(getDate() ∓ 7)` normalises month
rollover, i.e. shifts by exactly 7 days). -/
def ganttDomain (sov eov : Overrides) (projects : List ProjSummary) : Option (Int × Int) :=
  if projects = [] then none
  else
    match ganttTimestamps sov eov projects with
    | [] => none
    | t :: ts => some (ts.foldl min t - 7, ts.foldl max t + 7)

/-- **C5.**  The timeline domain is the minimum and maximum over every date
that parses among each displayed project's original start, original due,
override-resolved start and override-resolved finish, padded by 7 calendar
days on both ends; when no date parses the domain is `none` and nothing is
rendered (no error). -/
theorem c5_gantt_domain (sov eov : Overrides) (projects : List ProjSummary) :
    (ganttTimestamps sov eov projects = [] → ganttDomain sov eov projects = none) ∧
    (∀ t ts, ganttTimestamps sov eov projects = t :: ts →
      ∃ lo hi, ganttDomain sov eov projects = some (lo, hi) ∧
        (lo + 7 ∈ t :: ts ∧ ∀ x ∈ t :: ts, lo + 7 ≤ x) ∧
        (hi - 7 ∈ t :: ts ∧ ∀ x ∈ t :: ts, x ≤ hi - 7)) := by
  constructor
  · intro hempty
    by_cases hp : projects = []
    · simp [ganttDomain, hp]
    · simp [ganttDomain, hp, hempty]
  · intro t ts hts
    have hp : projects ≠ [] := by
      intro hp
      rw [hp] at hts
      simp [ganttTimestamps] at hts
    refine ⟨ts.foldl min t - 7, ts.foldl max t + 7, ?_, ⟨?_, ?_⟩, ⟨?_, ?_⟩⟩
    · simp [ganttDomain, hp, hts]
    · have := foldl_min_mem ts t
      simpa using this
    · intro x hx
      have := foldl_min_le ts t x hx
      omega
    · have := foldl_max_mem ts t
      simpa using this
    · intro x hx
      have := foldl_max_ge ts t x hx
      omega

/-- A displayed project spanning exactly 2025-07-01 to 2025-07-31. -/
def julyProject : ProjSummary :=
  { Project := "J", Store := "S", StartDate := "2025-07-01",
    DueDate := "2025-07-31", FinishDate := "2025-07-31",
    OriginalStartDate := "2025-07-01", daysVariance := 0 }

/-- Witness for C5: with no overrides, a single project spanning 2025-07-01
to 2025-07-31 gives the padded domain [2025-06-24, 2025-08-07]. -/
theorem c5_gantt_domain_witness :
    (∃ lo hi, ganttDomain [] [] [julyProject] = some (lo, hi) ∧
      (lo + 7 ∈ [daysFromCivil 2025 7 1, daysFromCivil 2025 7 31,
          daysFromCivil 2025 7 1, daysFromCivil 2025 7 31] ∧
        ∀ x ∈ [daysFromCivil 2025 7 1, daysFromCivil 2025 7 31,
          daysFromCivil 2025 7 1, daysFromCivil 2025 7 31], lo + 7 ≤ x) ∧
      (hi - 7 ∈ [daysFromCivil 2025 7 1, daysFromCivil 2025 7 31,
          daysFromCivil 2025 7 1, daysFromCivil 2025 7 31] ∧
        ∀ x ∈ [daysFromCivil 2025 7 1, daysFromCivil 2025 7 31,
          daysFromCivil 2025 7 1, daysFromCivil 2025 7 31], x ≤ hi - 7)) ∧
    ganttDomain [] [] [julyProject] =
      some (daysFromCivil 2025 6 24, daysFromCivil 2025 8 7) :=
  ⟨(c5_gantt_domain [] [] [julyProject]).2 (daysFromCivil 2025 7 1)
      [daysFromCivil 2025 7 31, daysFromCivil 2025 7 1, daysFromCivil 2025 7 31]
      (by decide),
    by decide⟩

/-! ## Tabular ingestion (`robustCsvParse`, `App.js` 233-257)

The row splitter is the source's character-scanning loop: outside quotes a
field runs to the next comma; a field opened by `"` consumes through the
matching closing quote with `""` unescaped to a literal quote
(`.replace(/""/g, ...)` on the raw span, performed here on the fly); after a
field an immediately following comma is consumed; a rowString ending in `,`
contributes a final empty field.  The result rows are JS objects
`rowObject[header[j]] = rowValues[j]`, modelled as association lists where
the *last* binding of a key wins (exactly a JS object built by successive
assignments). -/

/-- A parsed CSV row / a raw row object: key-value pairs where the last
binding of a key is the object's value. -/
abbrev Row := List (String × String)

/-- JS object property read, with `""` for an absent key (absent and empty
behave alike everywhere this code reads them; see the header). -/
def jsGet (r : Row) (k : String) : String :=
  match (r.filter (fun pr => pr.1 == k)).getLast? with
  | some pr => pr.2
  | none => ""

/-- JS object property write (`obj[k] = v`): the new binding shadows any
earlier one. -/
def jsSet (r : Row) (k v : String) : Row := r ++ [(k, v)]

/-- `String.prototype.trim` on a char list. -/
def jsTrim (cs : List Char) : List Char :=
  ((cs.dropWhile fun c => c.isWhitespace).reverse.dropWhile fun c => c.isWhitespace).reverse

/-- The inner quoted-field scan of `splitCsvRow` (`App.js` 239-242): from
just after an opening quote, collect content unescaping doubled quotes,
stopping after a lone closing quote (or at end of input); returns the field
content and the rest of the row string.  The flag records a pending quote
whose successor decides escape vs close. -/
def quotedScanAux : Bool → List Char → List Char × List Char
  | false, [] => ([], [])
  | false, c :: rest =>
    if c = '"' then quotedScanAux true rest
    else
      let q := quotedScanAux false rest
      (c :: q.1, q.2)
  | true, [] => ([], [])
  | true, c :: rest =>
    if c = '"' then
      let q := quotedScanAux false rest
      ('"' :: q.1, q.2)
    else ([], c :: rest)

/-- Scan a quoted field from just after its opening quote. -/
def quotedScan (cs : List Char) : List Char × List Char := quotedScanAux false cs

/-- `if (i < rowString.length && rowString[i] === ',') i++` after a field. -/
def skipComma : List Char → List Char
  | ',' :: r => r
  | r => r

theorem length_dropWhile_le' (p : Char → Bool) :
    ∀ l : List Char, (l.dropWhile p).length ≤ l.length
  | [] => by simp
  | c :: rest => by
    rw [List.dropWhile_cons]
    by_cases h : p c
    · rw [if_pos h]
      exact le_trans (length_dropWhile_le' p rest) (by simp)
    · rw [if_neg h]

theorem skipComma_length : ∀ l : List Char, (skipComma l).length ≤ l.length
  | [] => by simp [skipComma]
  | c :: r => by
    by_cases h : c = ','
    · subst h
      simp [skipComma]
    · have : skipComma (c :: r) = c :: r := by
        cases c <;> simp_all [skipComma]
      simp [this]

theorem quotedScanAux_length :
    ∀ (b : Bool) (cs : List Char), (quotedScanAux b cs).2.length ≤ cs.length
  | false, [] => by simp [quotedScanAux]
  | false, c :: rest => by
    by_cases h : c = '"'
    · subst h
      have heq : quotedScanAux false ('"' :: rest) = quotedScanAux true rest := by
        simp [quotedScanAux]
      rw [heq]
      have := quotedScanAux_length true rest
      simp only [List.length_cons]
      omega
    · have heq : quotedScanAux false (c :: rest) =
          (c :: (quotedScanAux false rest).1, (quotedScanAux false rest).2) := by
        simp [quotedScanAux, h]
      rw [heq]
      have := quotedScanAux_length false rest
      simp only [List.length_cons]
      omega
  | true, [] => by simp [quotedScanAux]
  | true, c :: rest => by
    by_cases h : c = '"'
    · subst h
      have heq : quotedScanAux true ('"' :: rest) =
          ('"' :: (quotedScanAux false rest).1, (quotedScanAux false rest).2) := by
        simp [quotedScanAux]
      rw [heq]
      have := quotedScanAux_length false rest
      simp only [List.length_cons]
      omega
    · have heq : quotedScanAux true (c :: rest) = ([], c :: rest) := by
        simp [quotedScanAux, h]
      rw [heq]

theorem skipComma_dropWhile_lt (c : Char) (rest : List Char) :
    (skipComma ((c :: rest).dropWhile fun x => x ≠ ',')).length < (c :: rest).length := by
  by_cases h : c = ','
  · subst h
    have hd : ((',' :: rest).dropWhile fun x => x ≠ ',') = ',' :: rest := by
      simp [List.dropWhile_cons]
    rw [hd]
    simp [skipComma]
  · have hd : ((c :: rest).dropWhile fun x => x ≠ ',') = rest.dropWhile fun x => x ≠ ',' := by
      simp [List.dropWhile_cons, h]
    rw [hd]
    have h1 := length_dropWhile_le' (fun x => x ≠ ',') rest
    have h2 := skipComma_length (rest.dropWhile fun x => x ≠ ',')
    simp only [List.length_cons]
    omega

/-- The outer field loop of `splitCsvRow` (`App.js` 237-245), written with
an explicit iteration budget so it is structural (and so computes in the
kernel): every iteration of the source loop advances `i` by at least one
character, so `cs.length + 1` iterations always suffice
(`skipComma_dropWhile_lt` / `quotedScanAux_length` below are that bound). -/
def splitFieldsGo : Nat → List Char → List (List Char)
  | 0, _ => []
  | _ + 1, [] => []
  | fuel + 1, c :: rest =>
    if c = '"' then
      (quotedScan rest).1 :: splitFieldsGo fuel (skipComma (quotedScan rest).2)
    else
      ((c :: rest).takeWhile fun x => x ≠ ',') ::
        splitFieldsGo fuel (skipComma ((c :: rest).dropWhile fun x => x ≠ ','))

/-- The field loop at its sufficient budget. -/
def splitFieldsAux (cs : List Char) : List (List Char) :=
  splitFieldsGo (cs.length + 1) cs

/-- `splitCsvRow` (`App.js` 236-246): the field loop plus the
trailing-comma empty field (`if (rowString.endsWith(',')) fields.push('')`). -/
def splitCsvRow (cs : List Char) : List (List Char) :=
  splitFieldsAux cs ++ (if cs.getLast? = some ',' then [[]] else [])

/-- The non-fatal error message of a column-count mismatch (`App.js` 251),
carrying the 1-based file line number. -/
def rowErrMsg (lineNo expected found : Nat) : String :=
  "Row " ++ toString lineNo ++ " has incorrect columns (expected " ++ toString expected ++
    ", found " ++ toString found ++ "). Skipping."

/-- The data-row loop of `robustCsvParse` (`App.js` 249-255): `i` is the
0-based index of the current line in the `lines` array (so the header is
line 0 and the reported file line number is `i + 1`); blank lines are
skipped, a column-count mismatch contributes one error and no row, any
other line contributes its row object. -/
def csvLoop (header : List String) : Nat → List (List Char) → List Row × List String
  | _, [] => ([], [])
  | i, l :: rest =>
    let next := csvLoop header (i + 1) rest
    if jsTrim l = [] then next
    else
      let rowValues := (splitCsvRow l).map (fun f => String.mk f)
      if rowValues.length ≠ header.length then
        (next.1, rowErrMsg (i + 1) header.length rowValues.length :: next.2)
      else (header.zip rowValues :: next.1, next.2)

/-- `robustCsvParse` (`App.js` 233-257):
`csvText.trim().replace(/\r.../g, '').split('\n')`, a fatal error result for
fewer than two lines, else the header (trimmed field names) and the data
loop. -/
def robustCsvParse (csvText : String) : List Row × List String :=
  let lines := splitOnChar '\n' ((jsTrim csvText.data).filter fun c => c ≠ '\r')
  if lines.length < 2 then ([], ["CSV has no data rows."])
  else
    match lines with
    | [] => ([], ["CSV has no data rows."])
    | l0 :: rest => csvLoop ((splitCsvRow l0).map fun f => String.mk (jsTrim f)) 1 rest

/-- Modelled from the spec's row-count invariant wording: the contribution
of the single data line at (1-based) file line `lineNo` — nothing for a
blank line, one error and no row for a column-count mismatch, one row
otherwise.  Compared below with the source's loop. -/
def csvLineOut (header : List String) (lineNo : Nat) (l : List Char) :
    List Row × List String :=
  if jsTrim l = [] then ([], [])
  else if (splitCsvRow l).length ≠ header.length then
    ([], [rowErrMsg lineNo header.length (splitCsvRow l).length])
  else ([header.zip ((splitCsvRow l).map fun f => String.mk f)], [])

/-- **C6, amended.**  The data loop of `robustCsvParse` is exactly the
concatenation of independent per-line contributions: every *non-blank* data
line whose split does not yield exactly the header's number of fields
contributes exactly one error naming its 1-based file line number and zero
rows, every other non-blank line contributes exactly its one parsed row,
and no line affects any other (a mismatch never aborts the rest of the
file).  Blank or whitespace-only data lines are skipped silently, with
neither a row nor an error. -/
theorem c6_csv_row_errors (header : List String) :
    ∀ (i : Nat) (lines : List (List Char)),
      csvLoop header i lines =
        ((lines.enumFrom i).flatMap fun pr => (csvLineOut header (pr.1 + 1) pr.2).1,
         (lines.enumFrom i).flatMap fun pr => (csvLineOut header (pr.1 + 1) pr.2).2)
  | i, [] => by simp [csvLoop, List.enumFrom]
  | i, l :: rest => by
    have ih := c6_csv_row_errors header (i + 1) rest
    simp only [csvLoop, ih, List.enumFrom, List.flatMap_cons]
    by_cases hblank : jsTrim l = []
    · simp [csvLineOut, hblank]
    · by_cases hlen : ((splitCsvRow l).map fun f => String.mk f).length = header.length
      · have hlen' : ¬(splitCsvRow l).length ≠ header.length := by
          simpa using hlen
        simp [csvLineOut, hblank, hlen, hlen']
      · have hlen' : (splitCsvRow l).length ≠ header.length := by
          simpa using hlen
        simp [csvLineOut, hblank, hlen, hlen']

/-- Witness for the amended C6: on the parse of `"A,B\n1,2\n3,4,5\n6,7"`
(header width 2; line 3 splits into 3 fields) the loop equals the per-line
concatenation, and evaluates to two rows plus exactly the one error naming
line 3. -/
theorem c6_csv_row_errors_witness :
    csvLoop ["A", "B"] 1 ["1,2".data, "3,4,5".data, "6,7".data] =
      ((["1,2".data, "3,4,5".data, "6,7".data].enumFrom 1).flatMap
          fun pr => (csvLineOut ["A", "B"] (pr.1 + 1) pr.2).1,
       (["1,2".data, "3,4,5".data, "6,7".data].enumFrom 1).flatMap
          fun pr => (csvLineOut ["A", "B"] (pr.1 + 1) pr.2).2) ∧
    robustCsvParse "A,B\n1,2\n3,4,5\n6,7" =
      ([[("A", "1"), ("B", "2")], [("A", "6"), ("B", "7")]],
       [rowErrMsg 3 2 3]) :=
  ⟨c6_csv_row_errors ["A", "B"] 1 ["1,2".data, "3,4,5".data, "6,7".data], by decide⟩

/-- **C6, counterexample.**  The claim demands one error entry for *every*
data line whose split does not yield exactly W fields.  A blank data line
splits into 0 fields (≠ W = 2) but is skipped by
`if (!lines[i] || !lines[i].trim()) continue` before the column check: the
parse of `"A,B\n\n1,2"` yields no error at all (and one row), refuting the
claim at line 2. -/
theorem c6_csv_counterexample :
    (splitCsvRow [] |>.length) = 0 ∧
    robustCsvParse "A,B\n\n1,2" = ([[("A", "1"), ("B", "2")]], []) := by
  constructor
  · decide
  · decide

/-- Budget irrelevance: any budget beyond the list length gives the same
fields, so `splitFieldsAux` computes the source loop's fixpoint. -/
theorem splitFieldsGo_fuel_irrelevant :
    ∀ (f1 : Nat), ∀ (cs : List Char) (f2 : Nat), cs.length < f1 → cs.length < f2 →
      splitFieldsGo f1 cs = splitFieldsGo f2 cs
  | 0, cs, f2, h1, _ => absurd h1 (by omega)
  | f1 + 1, [], f2, _, h2 => by
    cases f2 with
    | zero => omega
    | succ g => simp [splitFieldsGo]
  | f1 + 1, c :: rest, f2, h1, h2 => by
    cases f2 with
    | zero => omega
    | succ g =>
      simp only [List.length_cons] at h1 h2
      simp only [splitFieldsGo]
      by_cases hc : c = '"'
      · rw [if_pos hc, if_pos hc]
        have hq := quotedScanAux_length false rest
        have hs := skipComma_length (quotedScanAux false rest).2
        rw [splitFieldsGo_fuel_irrelevant f1 (skipComma (quotedScan rest).2) g
          (by simp only [quotedScan]; omega) (by simp only [quotedScan]; omega)]
      · rw [if_neg hc, if_neg hc]
        have hlt := skipComma_dropWhile_lt c rest
        simp only [List.length_cons] at hlt
        rw [splitFieldsGo_fuel_irrelevant f1
          (skipComma ((c :: rest).dropWhile fun x => x ≠ ',')) g
          (by omega) (by omega)]

/-! ## Schema normalizer (`loadAndCleanData`, `App.js` 344-355)

The alias pass copies `row[key]` to `newRow[renamedCols[key]]` for every
truthy source column, iterating the alias table in its literal order; then
the coercion map parses numbers and dates (`'Store': row['Store'] || 'N/A'`
defaults a missing store), and the filter keeps rows with truthy Project,
SKU and Store, parseable Order, dates and Estimated Hours.
`parseFloat`/`parseInt` are modelled as decimal prefix parsers over exact
rationals (the app's hour/value figures are short decimals; binary-double
rounding and the exponent/`Infinity` forms are outside the model). -/

/-- The `renamedCols` alias table, in object-literal (iteration) order. -/
def renamedColsList : List (String × String) :=
  [("Game", "Project"), ("Project", "Project"),
   ("Expected Hours", "Estimated Hours"), ("Labor Time", "Estimated Hours"),
   ("Estimated Hours", "Estimated Hours"), ("Due Date", "DueDate"),
   ("Start Date", "StartDate"), ("Value", "Value"), ("Store", "Store")]

/-- The alias pass (`App.js` 348-349): `newRow` starts as `{...row}` and
`for (const key in renamedCols) if (row[key])
newRow[renamedCols[key]] = row[key]` — reading always from the original
row, writing through `jsSet` (later writes shadow earlier ones). -/
def applyAliases (row : Row) : Row :=
  renamedColsList.foldl
    (fun nr kv => if jsGet row kv.1 ≠ "" then jsSet nr kv.2 (jsGet row kv.1) else nr)
    row

/-- JS `parseInt(s, 10)`: optional sign then a decimal-digit prefix; `NaN`
(here `none`) when no digit follows. -/
def jsParseInt (s : String) : Option Int :=
  let cs := jsTrim s.data
  let signAndRest : Int × List Char :=
    match cs with
    | '-' :: t => (-1, t)
    | '+' :: t => (1, t)
    | _ => (1, cs)
  let ds := signAndRest.2.takeWhile Char.isDigit
  if ds = [] then none else some (signAndRest.1 * (digitsToNat ds : Int))

/-- The value of a JS number arising from `parseFloat` of a decimal
string: an exact fraction in lowest terms, `(numerator, denominator)`.
(The app's hour/value figures are short decimals, far inside the range
where the IEEE double is exact enough that none of the claims can see the
difference; the exponent and `Infinity` forms of `parseFloat` are outside
the model.) -/
abbrev JsNum := Int × Nat

/-- Fuel-based Euclid (the first argument strictly decreases, so `x + 1`
steps suffice); written without well-founded recursion so the kernel can
evaluate it. -/
def gcdF : Nat → Nat → Nat → Nat
  | 0, _, y => y
  | fuel + 1, x, y => if x = 0 then y else gcdF fuel (y % x) x

/-- Executable gcd. -/
def natGcdExec (x y : Nat) : Nat := gcdF (x + 1) x y

/-- The fraction `mantissa / 10 ^ scale` in lowest terms. -/
def decFrac (mantissa : Int) (scale : Nat) : JsNum :=
  let den := 10 ^ scale
  let g := natGcdExec mantissa.natAbs den
  (mantissa / (g : Int), den / g)

/-- JS `parseFloat`: optional sign, digit prefix, optional `.` and fraction
digits; `NaN` (here `none`) when neither part has a digit. -/
def jsParseFloat (s : String) : Option JsNum :=
  let cs := jsTrim s.data
  let signAndRest : Int × List Char :=
    match cs with
    | '-' :: t => (-1, t)
    | '+' :: t => (1, t)
    | _ => (1, cs)
  let ip := signAndRest.2.takeWhile Char.isDigit
  let rest := signAndRest.2.dropWhile Char.isDigit
  let fp :=
    match rest with
    | '.' :: t => t.takeWhile Char.isDigit
    | _ => []
  if ip = [] ∧ fp = [] then none
  else
    some (decFrac
      (signAndRest.1 * ((digitsToNat ip : Int) * 10 ^ fp.length + (digitsToNat fp : Int)))
      fp.length)

/-- `String(value).replace(/,/g, '')`: strip thousands separators. -/
def removeCommas (s : String) : String := String.mk (s.data.filter fun c => c ≠ ',')

/-- A cleaned task row (the canonical fields the pipeline reads; the
coerced values the source keeps on the row object). -/
structure TaskRecord where
  Project : String
  SKU : String
  Store : String
  Order : Int
  EstimatedHours : JsNum
  Value : JsNum
  StartDate : Int
  DueDate : Int
deriving DecidableEq, Repr

/-- One row through the alias pass, the coercion map and the filter of
`loadAndCleanData` (`App.js` 347-351): `none` exactly when the filter drops
the row. -/
def cleanRow (row : Row) : Option TaskRecord :=
  let nr := applyAliases row
  let hours := jsParseFloat (jsGet nr "Estimated Hours")
  let order := jsParseInt (jsGet nr "Order")
  let due := parseDate (jsGet nr "DueDate")
  let start := parseDate (jsGet nr "StartDate")
  let value := (jsParseFloat (removeCommas (jsGet nr "Value"))).getD (0, 1)
  let store := if jsGet nr "Store" = "" then "N/A" else jsGet nr "Store"
  match order, hours, due, start with
  | some o, some h, some dd, some sd =>
    if jsGet nr "Project" ≠ "" ∧ jsGet nr "SKU" ≠ "" ∧ store ≠ "" then
      some { Project := jsGet nr "Project", SKU := jsGet nr "SKU", Store := store,
             Order := o, EstimatedHours := h, Value := value,
             StartDate := sd, DueDate := dd }
    else none
  | _, _, _, _ => none

/-- `loadAndCleanData` (`App.js` 344-355): `[]` for an empty input, `null`
(`none`) when a non-empty input loses every row to the filter, else the
cleaned rows. -/
def loadAndCleanData (data : List Row) : Option (List TaskRecord) :=
  if data.isEmpty then some []
  else
    let processed := data.filterMap cleanRow
    if processed.isEmpty then none else some processed

theorem jsGet_jsSet (r : Row) (k v k' : String) :
    jsGet (jsSet r k v) k' = if k' = k then v else jsGet r k' := by
  unfold jsGet jsSet
  rw [List.filter_append]
  by_cases h : k' = k
  · subst h
    have hf : List.filter (fun pr => pr.1 == k') [(k', v)] = [(k', v)] := by simp
    rw [hf, if_pos rfl]
    rw [show ∀ l : List (String × String), (l ++ [(k', v)]).getLast? = some (k', v)
        from fun l => by simp]
  · have hf : List.filter (fun pr => pr.1 == k') [(k, v)] = [] := by
      simp [Ne.symm h]
    rw [hf, List.append_nil, if_neg h]

/-- The last-truthy-alias semantics of the alias pass: the value an alias
fold leaves under canonical name `c`, starting from `nr`'s value. -/
theorem jsGet_foldl_alias (row : Row) (c : String) :
    ∀ (L : List (String × String)) (nr : Row),
      jsGet (L.foldl
          (fun nr kv => if jsGet row kv.1 ≠ "" then jsSet nr kv.2 (jsGet row kv.1) else nr)
          nr) c =
        L.foldl
          (fun v kv => if kv.2 = c ∧ jsGet row kv.1 ≠ "" then jsGet row kv.1 else v)
          (jsGet nr c)
  | [], nr => rfl
  | kv :: rest, nr => by
    simp only [List.foldl_cons]
    rw [jsGet_foldl_alias row c rest
      (if jsGet row kv.1 ≠ "" then jsSet nr kv.2 (jsGet row kv.1) else nr)]
    by_cases htruthy : jsGet row kv.1 ≠ ""
    · rw [if_pos htruthy, jsGet_jsSet]
      by_cases hc : kv.2 = c
      · have : c = kv.2 := hc.symm
        rw [if_pos this, if_pos ⟨hc, htruthy⟩]
      · have : ¬c = kv.2 := fun hh => hc hh.symm
        rw [if_neg this, if_neg (fun hh => hc hh.1)]
    · rw [if_neg htruthy, if_neg (fun hh => htruthy hh.2)]

/-- The value the claim says each canonical column should carry after the
alias pass, stated in the amended form: the *last* alias of `c` whose source
column is truthy wins (falling back to the row's own value of `c`). -/
def lastAliasVal (row : Row) (c : String) : String :=
  renamedColsList.foldl
    (fun v kv => if kv.2 = c ∧ jsGet row kv.1 ≠ "" then jsGet row kv.1 else v)
    (jsGet row c)

/-- The row with both "Expected Hours" and "Labor Time" present. -/
def c8Row : Row := [("Expected Hours", "5"), ("Labor Time", "7")]

/-- **C8, counterexample.**  With both "Expected Hours" (= "5") and "Labor
Time" (= "7") present, the alias pass guard `if (row[key])` tests the
*source* row only, so the later alias overwrites: the canonical Estimated
Hours is "7" (Labor Time), not the first-established "5" the claim says is
preserved. -/
theorem c8_alias_counterexample :
    jsGet c8Row "Expected Hours" = "5" ∧
    jsGet c8Row "Labor Time" = "7" ∧
    jsGet (applyAliases c8Row) "Estimated Hours" = "7" ∧
    jsGet (applyAliases c8Row) "Estimated Hours" ≠ "5" := by
  refine ⟨by decide, by decide, by decide, by decide⟩

/-- **C8, amended.**  After the alias pass, each canonical column carries
the value of the *last* alias in table order whose source column is truthy
(falling back to the row's own value of the canonical name): in particular
with "Expected Hours" and "Labor Time" both present and no "Estimated
Hours" column, "Labor Time" — the later alias — wins. -/
theorem c8_alias_overwrite (row : Row) :
    (∀ c, jsGet (applyAliases row) c = lastAliasVal row c) ∧
    (jsGet row "Expected Hours" ≠ "" → jsGet row "Labor Time" ≠ "" →
      jsGet row "Estimated Hours" = "" →
      jsGet (applyAliases row) "Estimated Hours" = jsGet row "Labor Time") := by
  have hgen : ∀ c, jsGet (applyAliases row) c = lastAliasVal row c := by
    intro c
    unfold applyAliases lastAliasVal
    exact jsGet_foldl_alias row c renamedColsList row
  refine ⟨hgen, ?_⟩
  intro h1 h2 h3
  rw [hgen "Estimated Hours"]
  unfold lastAliasVal renamedColsList
  simp only [List.foldl_cons, List.foldl_nil]
  rw [if_neg (fun hh => absurd hh.1 (by decide)),
      if_neg (fun hh => absurd hh.1 (by decide)),
      if_neg (fun hh => absurd hh.1 (by decide)),
      if_neg (fun hh => absurd hh.1 (by decide)),
      if_neg (fun hh => absurd h3 hh.2),
      if_pos ⟨by decide, h2⟩]

/-- A second both-aliases row (Estimated Hours column absent). -/
def c8RowW : Row := [("Expected Hours", "2.5"), ("Labor Time", "4"), ("SKU", "K")]

/-- Witness for the amended C8: on a row with Expected Hours "2.5" and
Labor Time "4", the canonical Estimated Hours after the alias pass is "4". -/
theorem c8_alias_overwrite_witness :
    jsGet (applyAliases c8RowW) "Estimated Hours" = "4" :=
  ((c8_alias_overwrite c8RowW).2 (by decide) (by decide) (by decide)).trans (by decide)

/-- A task row with Project and SKU but no Store column. -/
def c7Row : Row :=
  [("Project", "P"), ("SKU", "K"), ("Order", "1"), ("Estimated Hours", "2"),
   ("StartDate", "2025-07-01"), ("DueDate", "2025-07-10")]

/-- **C7, counterexample.**  The claim says the clean step filters out any
row missing Store.  The coercion map defaults a missing store
(`'Store': row['Store'] || 'N/A'`) before the filter runs, so a row with no
Store survives with Store "N/A": nothing filters it out. -/
theorem c7_clean_counterexample :
    jsGet (applyAliases c7Row) "Store" = "" ∧
    cleanRow c7Row = some
      { Project := "P", SKU := "K", Store := "N/A", Order := 1,
        EstimatedHours := (2, 1), Value := (0, 1),
        StartDate := daysFromCivil 2025 7 1, DueDate := daysFromCivil 2025 7 10 } ∧
    loadAndCleanData [c7Row] = some
      [{ Project := "P", SKU := "K", Store := "N/A", Order := 1,
         EstimatedHours := (2, 1), Value := (0, 1),
         StartDate := daysFromCivil 2025 7 1, DueDate := daysFromCivil 2025 7 10 }] := by
  refine ⟨by decide, by decide, by decide⟩

set_option maxHeartbeats 1600000 in
/-- **C7, amended.**  The clean step filters out exactly the rows whose
(alias-resolved) Project or SKU is missing, or whose Order fails integer
coercion, Estimated Hours fails float coercion, or StartDate/DueDate fails
date parsing; a row missing *Store* is kept, with Store defaulted to
"N/A".  `loadAndCleanData` returns `null` (distinct from the empty array)
exactly when the input was non-empty but zero rows survived. -/
theorem c7_clean_filter (data : List Row) (row : Row) :
    (cleanRow row = none ↔
      (jsGet (applyAliases row) "Project" = "" ∨
       jsGet (applyAliases row) "SKU" = "" ∨
       jsParseInt (jsGet (applyAliases row) "Order") = none ∨
       jsParseFloat (jsGet (applyAliases row) "Estimated Hours") = none ∨
       parseDate (jsGet (applyAliases row) "StartDate") = none ∨
       parseDate (jsGet (applyAliases row) "DueDate") = none)) ∧
    (∀ tr, cleanRow row = some tr →
      tr.Store = (if jsGet (applyAliases row) "Store" = "" then "N/A"
                  else jsGet (applyAliases row) "Store")) ∧
    (loadAndCleanData data = none ↔ (data ≠ [] ∧ data.filterMap cleanRow = [])) := by
  have hstore : (if jsGet (applyAliases row) "Store" = "" then "N/A"
      else jsGet (applyAliases row) "Store") ≠ "" := by
    split
    · decide
    · assumption
  refine ⟨?_, ?_, ?_⟩
  · cases ho : jsParseInt (jsGet (applyAliases row) "Order") <;>
      cases hh : jsParseFloat (jsGet (applyAliases row) "Estimated Hours") <;>
        cases hd : parseDate (jsGet (applyAliases row) "DueDate") <;>
          cases hs : parseDate (jsGet (applyAliases row) "StartDate") <;>
            simp [cleanRow, ho, hh, hd, hs, hstore] <;> tauto
  · intro tr htr
    cases ho : jsParseInt (jsGet (applyAliases row) "Order") <;>
      cases hh : jsParseFloat (jsGet (applyAliases row) "Estimated Hours") <;>
        cases hd : parseDate (jsGet (applyAliases row) "DueDate") <;>
          cases hs : parseDate (jsGet (applyAliases row) "StartDate") <;>
            simp [cleanRow, ho, hh, hd, hs] at htr <;>
              rw [← htr.2]
  · unfold loadAndCleanData
    by_cases hdata : data = []
    · simp [hdata]
    · have hne : data.isEmpty = false := by
        simpa [List.isEmpty_iff] using hdata
      rw [hne]
      simp only [Bool.false_eq_true, if_false]
      by_cases hproc : data.filterMap cleanRow = []
      · simp [hproc, hdata]
      · have : (data.filterMap cleanRow).isEmpty = false := by
          simpa [List.isEmpty_iff] using hproc
        simp [this, hdata, hproc]

/-- A row every one of whose required coercions fails. -/
def c7BadRow : Row := [("Project", "P")]

/-- Witness for the amended C7: a row with only a Project is dropped (its
SKU is missing), and a non-empty input consisting of that row alone makes
`loadAndCleanData` return `null` rather than the empty array. -/
theorem c7_clean_filter_witness :
    cleanRow c7BadRow = none ∧ loadAndCleanData [c7BadRow] = none := by
  constructor
  · exact (c7_clean_filter [c7BadRow] c7BadRow).1.mpr (Or.inr (Or.inl (by decide)))
  · exact (c7_clean_filter [c7BadRow] c7BadRow).2.2.mpr ⟨by decide, by decide⟩

/-! ## Upload duplicate rejection (`handleFileChange`, `App.js` 357-388)

After cleaning, the incoming batch's project names are compared with the
names of the currently loaded projects (`builtProjects`); any collision
rejects the whole batch with a message listing every colliding name, and
`setProjectTasks` is never called. -/

/-- `builtProjects` names (`App.js` 177-185): the first-occurrence list of
truthy Project values among the loaded tasks (the by-name sort of
`builtProjects` does not affect membership and is omitted). -/
def builtProjectNames (tasks : List TaskRecord) : List String :=
  tasks.foldl
    (fun acc t => if t.Project ≠ "" ∧ t.Project ∉ acc then acc ++ [t.Project] else acc)
    []

/-- `new Set(xs)` iterated in insertion order: first occurrences. -/
def dedupFirst (l : List String) : List String :=
  l.foldl (fun acc n => if n ∈ acc then acc else acc ++ [n]) []

/-- The rejection message (`App.js` 375). -/
def dupErrorMsg (dups : List String) : String :=
  "Upload failed. The following projects already exist: " ++
    String.intercalate ", " dups ++ ". Please remove them or use unique names in your CSV."

/-- The duplicate names of a batch: `[...incomingProjectNames].filter(name
=> existingProjectNames.has(name))` (`App.js` 370-372). -/
def dupNames (existing cleaned : List TaskRecord) : List String :=
  (dedupFirst (cleaned.map (fun t => t.Project))).filter
    (fun n => (builtProjectNames existing).contains n)

/-- The task-store outcome of one upload of an already-cleaned non-empty
batch (`App.js` 369-381): on any collision the store is unchanged and the
error is set; otherwise the batch is appended.  (An empty or failed clean
never reaches this branch and leaves the store unchanged.) -/
def handleUpload (existing cleaned : List TaskRecord) :
    List TaskRecord × Option String :=
  if cleaned = [] then (existing, none)
  else if dupNames existing cleaned = [] then (existing ++ cleaned, none)
  else (existing, some (dupErrorMsg (dupNames existing cleaned)))

theorem mem_dedupFirst_aux (n : String) :
    ∀ (l acc : List String),
      (n ∈ l.foldl (fun acc n => if n ∈ acc then acc else acc ++ [n]) acc ↔
        n ∈ acc ∨ n ∈ l)
  | [], acc => by simp
  | x :: xs, acc => by
    simp only [List.foldl_cons]
    by_cases hx : x ∈ acc
    · rw [if_pos hx, mem_dedupFirst_aux n xs acc]
      constructor
      · rintro (h | h)
        · exact Or.inl h
        · exact Or.inr (List.mem_cons.mpr (Or.inr h))
      · rintro (h | h)
        · exact Or.inl h
        · rcases List.mem_cons.mp h with rfl | h
          · exact Or.inl hx
          · exact Or.inr h
    · rw [if_neg hx, mem_dedupFirst_aux n xs (acc ++ [x])]
      simp only [List.mem_append, List.mem_singleton, List.mem_cons]
      tauto

theorem mem_dedupFirst (n : String) (l : List String) :
    n ∈ dedupFirst l ↔ n ∈ l := by
  unfold dedupFirst
  rw [mem_dedupFirst_aux n l []]
  simp

theorem mem_builtProjectNames_aux (n : String) :
    ∀ (tasks : List TaskRecord) (acc : List String),
      (n ∈ tasks.foldl
          (fun acc t => if t.Project ≠ "" ∧ t.Project ∉ acc then acc ++ [t.Project] else acc)
          acc ↔
        n ∈ acc ∨ ∃ t ∈ tasks, t.Project = n ∧ n ≠ "")
  | [], acc => by simp
  | x :: xs, acc => by
    simp only [List.foldl_cons]
    by_cases hx : x.Project ≠ "" ∧ x.Project ∉ acc
    · rw [if_pos hx, mem_builtProjectNames_aux n xs (acc ++ [x.Project])]
      simp only [List.mem_append, List.mem_singleton, List.mem_cons,
        List.not_mem_nil, or_false]
      constructor
      · rintro ((h | h) | h)
        · exact Or.inl h
        · subst h
          exact Or.inr ⟨x, Or.inl rfl, rfl, hx.1⟩
        · rcases h with ⟨t, ht, hn, hne⟩
          exact Or.inr ⟨t, Or.inr ht, hn, hne⟩
      · rintro (h | ⟨t, ht, hn, hne⟩)
        · exact Or.inl (Or.inl h)
        · rcases ht with rfl | ht
          · exact Or.inl (Or.inr hn.symm)
          · exact Or.inr ⟨t, ht, hn, hne⟩
    · rw [if_neg hx, mem_builtProjectNames_aux n xs acc]
      rw [not_and_or, not_not, not_not] at hx
      constructor
      · rintro (h | ⟨t, ht, hn, hne⟩)
        · exact Or.inl h
        · exact Or.inr ⟨t, List.mem_cons.mpr (Or.inr ht), hn, hne⟩
      · rintro (h | ⟨t, ht, hn, hne⟩)
        · exact Or.inl h
        · rcases List.mem_cons.mp ht with rfl | ht
          · rcases hx with hx | hx
            · exact absurd (hn ▸ hx) hne
            · exact Or.inl (hn ▸ hx)
          · exact Or.inr ⟨t, ht, hn, hne⟩

theorem mem_builtProjectNames (n : String) (tasks : List TaskRecord) :
    n ∈ builtProjectNames tasks ↔ ∃ t ∈ tasks, t.Project = n ∧ n ≠ "" := by
  unfold builtProjectNames
  rw [mem_builtProjectNames_aux n tasks []]
  simp

/-- **C9.**  If any project name of the cleaned batch already exists among
the loaded tasks, the whole upload is rejected: the task store is returned
unchanged (zero rows added) and the error is the message listing exactly
the colliding names — a name is listed iff it is a Project of the batch
that also names a loaded project. -/
theorem c9_duplicate_rejection (existing cleaned : List TaskRecord)
    (hcl : cleaned ≠ []) (hdups : dupNames existing cleaned ≠ []) :
    handleUpload existing cleaned =
      (existing, some (dupErrorMsg (dupNames existing cleaned))) ∧
    (∀ n, n ∈ dupNames existing cleaned ↔
      ((∃ t ∈ cleaned, t.Project = n) ∧ ∃ t ∈ existing, t.Project = n ∧ n ≠ "")) := by
  constructor
  · unfold handleUpload
    rw [if_neg hcl, if_neg hdups]
  · intro n
    unfold dupNames
    rw [List.mem_filter]
    rw [mem_dedupFirst]
    rw [List.contains_iff_exists_mem_beq]
    constructor
    · rintro ⟨h1, h2⟩
      rcases List.mem_map.mp h1 with ⟨t, ht, hn⟩
      obtain ⟨m, hm, hbeq⟩ := h2
      have hmn : n = m := beq_iff_eq.mp hbeq
      subst hmn
      exact ⟨⟨t, ht, hn⟩, (mem_builtProjectNames n existing).mp hm⟩
    · rintro ⟨⟨t, ht, hn⟩, hex⟩
      refine ⟨List.mem_map.mpr ⟨t, ht, hn⟩, ?_⟩
      exact ⟨n, (mem_builtProjectNames n existing).mpr hex, by simp⟩

/-- An already-loaded "Job-001" task. -/
def job001Task : TaskRecord :=
  { Project := "Job-001", SKU := "SKU-01-A", Store := "Store-A", Order := 1,
    EstimatedHours := (10, 1), Value := (1500, 1),
    StartDate := daysFromCivil 2025 7 1, DueDate := daysFromCivil 2025 7 15 }

/-- A newly uploaded batch that reuses the name "Job-001". -/
def job001Incoming : TaskRecord :=
  { Project := "Job-001", SKU := "SKU-02-B", Store := "Store-B", Order := 1,
    EstimatedHours := (5, 1), Value := (800, 1),
    StartDate := daysFromCivil 2025 8 1, DueDate := daysFromCivil 2025 8 15 }

/-- Witness for C9: uploading a batch containing Project "Job-001" when
"Job-001" is already loaded adds zero rows and produces exactly the error
naming "Job-001". -/
theorem c9_duplicate_rejection_witness :
    handleUpload [job001Task] [job001Incoming] =
      ([job001Task],
        some "Upload failed. The following projects already exist: Job-001. Please remove them or use unique names in your CSV.") ∧
    ("Job-001" ∈ dupNames [job001Task] [job001Incoming] ↔
      ((∃ t ∈ [job001Incoming], t.Project = "Job-001") ∧
        ∃ t ∈ [job001Task], t.Project = "Job-001" ∧ "Job-001" ≠ "")) := by
  have h := c9_duplicate_rejection [job001Task] [job001Incoming]
    (by decide) (by decide)
  refine ⟨?_, h.2 "Job-001"⟩
  rw [h.1]
  decide
